import Mathlib

/-!
Shallow embedding of the reconciliation core of
`blackduck/jenkins/detect-scan/update-manual-manifest.py` (class
`UpdateComponents`): version canonicalization, alias/fallback resolution,
the dict-diff decode loop of `perform`, and the apply-stage helpers.

Python dicts are modelled as association lists over `String` keys, Python
sets as duplicate-free `List String` (membership is all that matters),
Python `None` as `Option.none`, and `sys.exit(n)` as `Except.error n`.
Remote-service calls (the Knowledgebase REST API and the project-version
BOM) are modelled as explicit oracle parameters: a catalog search returns
the list of entries the HTTP call would produce.  Fields of the Python
object that no claim touches (`hub`, `project_version`, `bom_components`
raw record list, `bom_comp_ids`) are omitted from the state.
-/

/-- Association-list lookup, modelling Python `dict.get(key)` /
`dict[key]` (returns `none` when the key is absent; `defaultdict.get`
also does not insert a default). -/
def lookupStr {α : Type} : List (String × α) → String → Option α
  | [], _ => none
  | (k', v) :: t, k => if k' = k then some v else lookupStr t k

/-- Association-list update, modelling Python `dict[key] = value`. -/
def setStr {α : Type} : List (String × α) → String → α → List (String × α)
  | [], k, v => [(k, v)]
  | (k', v') :: t, k, v => if k' = k then (k, v) :: t else (k', v') :: setStr t k v

/-- Python `str.startswith`. -/
def startsWithStr (pre s : String) : Bool := pre.data.isPrefixOf s.data

/-- Python `str.lower()`. -/
def lowerStr (s : String) : String := String.mk (s.data.map Char.toLower)

/-- Substring test over char lists (Python `needle in hay`). -/
def infixOf : List Char → List Char → Bool
  | n, [] => n.isEmpty
  | n, c :: t => n.isPrefixOf (c :: t) || infixOf n t

/-- Python `needle in hay` on strings. -/
def strContains (hay needle : String) : Bool := infixOf needle.data hay.data

/-- Python slicing `s[n:]`. -/
def dropStr (n : Nat) (s : String) : String := String.mk (s.data.drop n)

/-- One character of the regex character class `[.0-9]`. -/
def charOk (c : Char) : Bool := c.isDigit || c = '.'

/-- The regex fragment `[.0-9]+`: nonempty, only digits and dots. -/
def digitsDots (s : String) : Bool := !s.data.isEmpty && s.data.all charOk

/-- `v_re = ^(v?)([.0-9]+)$`.  Returns group 2 (the part after the
optional leading `v`) when the whole string matches, else `none`. -/
def vMatch (s : String) : Option String :=
  if startsWithStr "v" s && digitsDots (dropStr 1 s) then some (dropStr 1 s)
  else if digitsDots s then some s else none

/-- Splitting a char list at `'.'` (Python `str.split('.')`). -/
def splitDots : List Char → List (List Char)
  | [] => [[]]
  | c :: t =>
    if c = '.' then [] :: splitDots t
    else
      match splitDots t with
      | [] => [[c]]
      | h :: r => (c :: h) :: r

/-- `date_re = ^([0-9]{4})\.([0-9]{1,2})\.([0-9]{1,2})$`.  Returns the
three digit groups when the whole string matches. -/
def dateMatch (s : String) : Option (List Char × List Char × List Char) :=
  match splitDots s.data with
  | [y, m, d] =>
    if y.length = 4 ∧ y.all Char.isDigit = true ∧
       1 ≤ m.length ∧ m.length ≤ 2 ∧ m.all Char.isDigit = true ∧
       1 ≤ d.length ∧ d.length ≤ 2 ∧ d.all Char.isDigit = true
    then some (y, m, d) else none
  | _ => none

/-- Zero-fill right-alignment to width `w`, i.e. the format spec `>0w`
used in the certifi heuristic f-string. -/
def padL (w : Nat) (l : List Char) : List Char := List.replicate (w - l.length) '0' ++ l

/-- The certifi canonical form `f"{m1:>04}.{m2:>02}.{m3:>02}"`. -/
def mkDateCanon (y m d : List Char) : String :=
  String.mk (padL 4 y ++ '.' :: (padL 2 m ++ '.' :: padL 2 d))

/-- Python `int()` on a digit string. -/
def natOfDigits (l : List Char) : Nat := l.foldl (fun n c => n * 10 + (c.toNat - 48)) 0

/-- The certifi alternate form `f"{int(m1)}.{int(m2)}.{int(m3)}"`. -/
def mkDateAlt (y m d : List Char) : String :=
  String.mk ((Nat.repr (natOfDigits y)).data ++
    '.' :: ((Nat.repr (natOfDigits m)).data ++ '.' :: (Nat.repr (natOfDigits d)).data))

/-- The `f"{comp_id}::{version}"` key used for both
`bd_comp_version_fallbacks` and `bd_alt_canonical_versions`. -/
def verKey (comp_id version : String) : String := comp_id ++ "::" ++ version

/-- The alternate-version index `bd_alt_canonical_versions`:
`(comp_id, canonical version) → set of alternate spellings`. -/
abbrev AltIdx := List (String × List String)

/-- `UpdateComponents._add_alt_canonical_version`: add one alternate
spelling to the set stored under `comp_id::canon_ver`. -/
def add_alt_canonical_version (alts : AltIdx) (comp_id canon_ver alt_ver : String) : AltIdx :=
  let key := verKey comp_id canon_ver
  let cur := (lookupStr alts key).getD []
  if alt_ver ∈ cur then alts else setStr alts key (alt_ver :: cur)

/-- The set of alternates currently registered for
`(comp_id, canon_ver)` (empty when the key is absent). -/
def altsAt (alts : AltIdx) (comp_id canon_ver : String) : List String :=
  (lookupStr alts (verKey comp_id canon_ver)).getD []

/-- The component-specific heuristics block of `canonicalize_version`,
applied after the leading-"v" strip: returns `(canon_ver, alt_ver)`.
Branch order and the (case-sensitive) `startswith` / `in` tests follow
the source. -/
def canon_pair (comp_name version : String) : String × String :=
  if startsWithStr "erlang" comp_name then
    ((if startsWithStr "OTP-" version then dropStr 4 version else version), version)
  else if startsWithStr "go programming language" comp_name then
    ((if startsWithStr "go" version then dropStr 2 version else version), version)
  else if strContains comp_name "certifi" then
    match dateMatch version with
    | some (y, m, d) => (mkDateCanon y m d, mkDateAlt y m d)
    | none => (version, version)
  else (version, version)

/-- The `if save_alts:` block of `canonicalize_version`: the loop
`for alt in (alt_ver, version)` unrolled.  `vm` is the truthiness of
`v_match`. -/
def save_alt_block (alts : AltIdx) (comp_id canon_ver alt_ver version : String)
    (vm : Bool) : AltIdx :=
  let a1 := if vm then add_alt_canonical_version alts comp_id canon_ver ("v" ++ alt_ver) else alts
  let a2 := if canon_ver ≠ alt_ver then add_alt_canonical_version a1 comp_id canon_ver alt_ver else a1
  let a3 := if vm then add_alt_canonical_version a2 comp_id canon_ver ("v" ++ version) else a2
  if canon_ver ≠ version then add_alt_canonical_version a3 comp_id canon_ver version else a3

/-- `UpdateComponents.canonicalize_version`.  Returns the canonical
version together with the (possibly extended) alternate-version index;
the index is extended only when `save_alts` is true. -/
def canonicalize_version (alts : AltIdx) (comp_name comp_id version0 : String)
    (save_alts : Bool) : String × AltIdx :=
  let vm := vMatch version0
  let version := vm.getD version0
  let cp := canon_pair comp_name version
  (cp.1,
   if save_alts then save_alt_block alts comp_id cp.1 cp.2 version vm.isSome else alts)

/-- One canonicalized component record: the values of `bom_comp_map` and
`manifest` (`versions` set, lowercased `bd-name`, tri-state
`license-approved`; `bom_comp_map` always stores `some b`, `manifest`
stores `none` when the manifest had no `license-approved` key). -/
structure CompRec where
  versions : List String
  bd_name : String
  license_approved : Option Bool
deriving DecidableEq

/-- The mutable state of an `UpdateComponents` instance that the
reconciliation core reads and writes. -/
structure UCState where
  bd_comp_id_aliases : List (String × String)
  bd_comp_version_fallbacks : List (String × String)
  bd_alt_canonical_versions : AltIdx
  bom_comp_map : List (String × CompRec)
  manifest : List (String × CompRec)
deriving DecidableEq

/-- `UpdateComponents.find_canonical_component_version`, with the
network-level `_find_component_version` probe abstracted as the oracle
`find : comp_id → version → Option url`.  Tries the canonical version
first, then every registered alternate. -/
def find_canonical_component_version (find : String → String → Option String)
    (alts : AltIdx) (comp_name comp_id version : String) : Option String :=
  match find comp_id version with
  | some url => some url
  | none =>
    match lookupStr alts (verKey comp_id version) with
    | none => none
    | some alt_vers => alt_vers.findSome? (fun alt_ver => find comp_id alt_ver)

/-- `UpdateComponents.fallback_version_if_necessary`.  Returns the
version to put in the manifest together with the (possibly extended)
alternate index; `sys.exit(2)` is `Except.error 2`. -/
def fallback_version_if_necessary (find : String → String → Option String)
    (st : UCState) (comp_name comp_id version : String) : Except Nat (String × AltIdx) :=
  match lookupStr st.bd_comp_version_fallbacks (verKey comp_id version) with
  | none => Except.ok (version, st.bd_alt_canonical_versions)
  | some fallback_version =>
    let bom_has_canonical :=
      match lookupStr st.bom_comp_map comp_id with
      | some comp_data => decide (version ∈ comp_data.versions)
      | none => false
    if bom_has_canonical then Except.ok (version, st.bd_alt_canonical_versions)
    else
      match find_canonical_component_version find st.bd_alt_canonical_versions
          comp_name comp_id version with
      | some _ => Except.ok (version, st.bd_alt_canonical_versions)
      | none =>
        let r := canonicalize_version st.bd_alt_canonical_versions comp_name comp_id
          fallback_version true
        match find_canonical_component_version find r.2 comp_name comp_id r.1 with
        | some _ => Except.ok (r.1, r.2)
        | none => Except.error 2

/-- Set union by insertion, modelling Python `set.update` /
`set.add` (order of a Python set is irrelevant; only membership is). -/
def unionList (a b : List String) : List String :=
  b.foldl (fun acc v => if v ∈ acc then acc else acc ++ [v]) a

/-- One manifest component entry as `add_component` receives it:
the keys `versions`, `license-approved`, `bd-name`, `bd-id` of the YAML
value.  `bd-id` is modelled as present (every real manifest entry
carries it; a missing `bd-id` would key the manifest dict by Python
`None`). -/
structure CompData where
  versions : List String
  license_approved : Option Bool
  bd_name : Option String
  bd_id : String
deriving DecidableEq

/-- The list comprehension in `add_component`: canonicalize each raw
version with `save_alts=True`, then apply
`fallback_version_if_necessary`, threading the alternate index through
and aborting on a fatal fallback miss. -/
def canonicalized_versions (find : String → String → Option String) (st : UCState)
    (comp_name comp_id : String) (versions : List String) :
    Except Nat (AltIdx × List String) :=
  versions.foldlM
    (fun (acc : AltIdx × List String) v =>
      let r := canonicalize_version acc.1 comp_name comp_id v true
      match fallback_version_if_necessary find
          { st with bd_alt_canonical_versions := r.2 } comp_name comp_id r.1 with
      | Except.ok (ver, alts2) => Except.ok (alts2, acc.2 ++ [ver])
      | Except.error e => Except.error e)
    (st.bd_alt_canonical_versions, [])

/-- `UpdateComponents.add_component`: fold one manifest component entry
into the desired-state `manifest` map.  The `bd-name`, union of
`versions`, and `license-approved` are stored under the alias-translated
component id; the assignment
`self.manifest[comp_id]["license-approved"] = license_approved` is
unconditional. -/
def add_component (find : String → String → Option String) (st : UCState)
    (comp_name0 : String) (cd : CompData) : Except Nat UCState :=
  let comp_name := lowerStr (cd.bd_name.getD comp_name0)
  let comp_id := (lookupStr st.bd_comp_id_aliases cd.bd_id).getD cd.bd_id
  match canonicalized_versions find st comp_name comp_id cd.versions with
  | Except.error e => Except.error e
  | Except.ok (alts', vers) =>
    let old := (lookupStr st.manifest comp_id).getD
      { versions := [], bd_name := "", license_approved := none }
    let newRec : CompRec :=
      { versions := unionList old.versions vers,
        bd_name := comp_name,
        license_approved := cd.license_approved }
    Except.ok { st with
      bd_alt_canonical_versions := alts',
      manifest := setStr st.manifest comp_id newRec }

/-- One entry of the Knowledgebase version-search response: its
`versionName` and its `_meta.href` URL. -/
structure KBVersionEntry where
  versionName : String
  href : String
deriving DecidableEq

/-- The `re.sub(r"[+]", "_", version)` wildcard substitution feeding the
search query of `_find_component_version`. -/
def safe_version (version : String) : String :=
  String.mk (version.data.map (fun c => if c = '+' then '_' else c))

/-- `UpdateComponents._find_component_version`, with the HTTP search
abstracted as `search : comp_id → query → entries`.  The query uses the
`+`→`_` substitution; a result is returned only when its `versionName`
is an exact match for the requested (unsubstituted) version. -/
def find_component_version (search : String → String → List KBVersionEntry)
    (comp_name comp_id version : String) : Option String :=
  match List.find? (fun e => e.versionName == version)
      (search comp_id (safe_version version)) with
  | some e => some e.href
  | none => none

/-- Observable effects of `add_component_version`: the prominently
logged component-id mismatch, the dry-run skip line, and the POST that
adds the component-version to the project-version. -/
inductive ApplyEvent
  | idMismatch (comp_id url : String)
  | dryrunSkip
  | addMutation (url : String)
deriving DecidableEq

/-- `UpdateComponents.add_component_version`: resolve the version in the
Knowledgebase (fatal `sys.exit(3)` on a complete miss), log — without
aborting — when the resolved URL does not contain the expected component
id, then issue the add mutation (or the dry-run skip). -/
def add_component_version (find : String → String → Option String) (alts : AltIdx)
    (dryrun : Bool) (comp_name comp_id version : String) : Except Nat (List ApplyEvent) :=
  match find_canonical_component_version find alts comp_name comp_id version with
  | none => Except.error 3
  | some url =>
    Except.ok
      ((if strContains url comp_id then [] else [ApplyEvent.idMismatch comp_id url])
        ++ [if dryrun then ApplyEvent.dryrunSkip else ApplyEvent.addMutation url])

/-- One record of the remote manually-added BOM as
`_load_manual_bom_components` consumes it. -/
structure BomItem where
  component : String
  componentName : String
  componentVersionName : Option String
  reviewStatus : String
deriving DecidableEq

/-- `urlparse(comp_url).path.rsplit('/', 1)[1]`: the last path segment
of a Black Duck component URL (such URLs carry no query or fragment). -/
def comp_id_of_url (url : String) : String := (url.splitOn "/").getLastD ""

/-- `UpdateComponents._load_manual_bom_components`: canonicalize each
remote record (with `save_alts=False`) into `bom_comp_map`, OR-ing the
`reviewStatus` into `license-approved`. -/
def load_manual_bom_components (st : UCState) (items : List BomItem) : UCState :=
  items.foldl
    (fun st comp =>
      let comp_id := comp_id_of_url comp.component
      let comp_name := lowerStr comp.componentName
      let r := canonicalize_version st.bd_alt_canonical_versions comp_name comp_id
        (comp.componentVersionName.getD "") false
      let reviewed := comp.reviewStatus == "REVIEWED"
      let old := (lookupStr st.bom_comp_map comp_id).getD
        { versions := [], bd_name := "", license_approved := some false }
      let newRec : CompRec :=
        { versions := unionList old.versions [r.1],
          bd_name := comp_name,
          license_approved := some ((old.license_approved.getD false) || reviewed) }
      { st with
        bd_alt_canonical_versions := r.2,
        bom_comp_map := setStr st.bom_comp_map comp_id newRec })
    st

/-- The diff actions `dictdiffer.diff(bom_comp_map, manifest)` can emit
at the `bom_comp_map`/`manifest` schema, decoded the way `perform`
decodes them (whole-component add/remove at the root, version-set
add/remove under `<id>.versions`, scalar changes under `<id>.bd-name`
and `<id>.license-approved`).  `dictdiffer` is an external library; this
is its documented behaviour specialized to this shape. -/
inductive DiffOp
  | addComps (comps : List (String × CompRec))
  | removeComps (comps : List (String × CompRec))
  | addVersions (comp_id : String) (versions : List String)
  | removeVersions (comp_id : String) (versions : List String)
  | changeBdName (comp_id : String) (oldName newName : String)
  | changeLicense (comp_id : String) (oldVal newVal : Option Bool)
deriving DecidableEq

/-- The per-component recursion of `dictdiffer.diff`: scalar changes for
`bd-name` and `license-approved`, set add/remove for `versions`. -/
def diffRec (comp_id : String) (a b : CompRec) : List DiffOp :=
  (if a.bd_name ≠ b.bd_name then [DiffOp.changeBdName comp_id a.bd_name b.bd_name] else [])
  ++ (let added := b.versions.filter (fun v => decide (v ∉ a.versions))
      if added.isEmpty then [] else [DiffOp.addVersions comp_id added])
  ++ (let removed := a.versions.filter (fun v => decide (v ∉ b.versions))
      if removed.isEmpty then [] else [DiffOp.removeVersions comp_id removed])
  ++ (if a.license_approved ≠ b.license_approved then
        [DiffOp.changeLicense comp_id a.license_approved b.license_approved] else [])

/-- `dictdiffer.diff(first, second)` over the two canonical component
maps: recurse into keys present in both, then remove keys only in
`first`, then add keys only in `second`. -/
def ddiff (first second : List (String × CompRec)) : List DiffOp :=
  (first.filterMap (fun p => (lookupStr second p.1).map (fun rb => diffRec p.1 p.2 rb))).flatten
  ++ (let removed := first.filter (fun p => (lookupStr second p.1).isNone)
      if removed.isEmpty then [] else [DiffOp.removeComps removed])
  ++ (let added := second.filter (fun p => (lookupStr first p.1).isNone)
      if added.isEmpty then [] else [DiffOp.addComps added])

/-- The `actions_taken` counter of `UpdateComponents.perform`: one
action per added/removed component-version, one per applied
license-approved change; `bd-name` changes and `license-approved`
changes whose new value is `None` are ignored. -/
def perform_actions : List DiffOp → Nat
  | [] => 0
  | op :: rest =>
    (match op with
     | DiffOp.addComps comps => (comps.map (fun p => p.2.versions.length)).sum
     | DiffOp.removeComps comps => (comps.map (fun p => p.2.versions.length)).sum
     | DiffOp.addVersions _ vs => vs.length
     | DiffOp.removeVersions _ vs => vs.length
     | DiffOp.changeBdName _ _ _ => 0
     | DiffOp.changeLicense _ _ newVal => if newVal = none then 0 else 1)
    + perform_actions rest

/-- `perform`: diff the remote map against the desired map and count the
actions the apply loop executes. -/
def perform_count (bom_comp_map manifest : List (String × CompRec)) : Nat :=
  perform_actions (ddiff bom_comp_map manifest)

/-! ### Association-list and alternate-index lemmas -/

theorem lookupStr_setStr_self {α : Type} (l : List (String × α)) (k : String) (v : α) :
    lookupStr (setStr l k v) k = some v := by
  induction l with
  | nil => simp [setStr, lookupStr]
  | cons p t ih =>
    obtain ⟨k', v'⟩ := p
    by_cases h : k' = k
    · simp [setStr, h, lookupStr]
    · simp [setStr, h, lookupStr, ih]

theorem mem_altsAt_add_self (alts : AltIdx) (i c a : String) :
    a ∈ altsAt (add_alt_canonical_version alts i c a) i c := by
  unfold add_alt_canonical_version altsAt
  by_cases h : a ∈ (lookupStr alts (verKey i c)).getD []
  · simp [h]
  · simp [h, lookupStr_setStr_self]

theorem mem_altsAt_add_of_mem (alts : AltIdx) (i c x y : String)
    (h : x ∈ altsAt alts i c) :
    x ∈ altsAt (add_alt_canonical_version alts i c y) i c := by
  unfold add_alt_canonical_version
  unfold altsAt at h ⊢
  by_cases hy : y ∈ (lookupStr alts (verKey i c)).getD []
  · simpa [hy]
  · simp [hy, lookupStr_setStr_self]
    exact Or.inr h

theorem mem_save_alt_block (alts : AltIdx) (i c av v : String) :
    ("v" ++ v) ∈ altsAt (save_alt_block alts i c av v true) i c := by
  unfold save_alt_block
  simp only [reduceIte]
  split
  · exact mem_altsAt_add_of_mem _ _ _ _ _ (mem_altsAt_add_self _ _ _ _)
  · exact mem_altsAt_add_self _ _ _ _

theorem save_alt_block_id (alts : AltIdx) (i c : String) :
    save_alt_block alts i c c c false = alts := by
  simp [save_alt_block]

theorem canonicalize_version_snd_false (alts : AltIdx) (n i v : String) :
    (canonicalize_version alts n i v false).2 = alts := rfl

/-! ### `v_re` lemmas -/

theorem charOk_ne_v {c : Char} (h : charOk c = true) : c ≠ 'v' := by
  intro hc; subst hc; exact absurd h (by decide)

theorem startsWithStr_v_eq_false {s : String} (h : digitsDots s = true) :
    startsWithStr "v" s = false := by
  unfold digitsDots at h
  unfold startsWithStr
  cases hd : s.data with
  | nil => rw [hd] at h; exact absurd h (by decide)
  | cons c t =>
    rw [hd] at h
    have hc : charOk c = true := by
      have := (Bool.and_eq_true _ _).mp h
      exact (List.all_eq_true.mp this.2) c (by simp)
    have hne : ('v' : Char) ≠ c := fun he => charOk_ne_v hc he.symm
    show List.isPrefixOf ['v'] (c :: t) = false
    simp [List.isPrefixOf, hne]

theorem vMatch_of_digitsDots {s : String} (h : digitsDots s = true) :
    vMatch s = some s := by
  unfold vMatch
  rw [startsWithStr_v_eq_false h]
  simp [h]

theorem digitsDots_of_vMatch {s t : String} (h : vMatch s = some t) :
    digitsDots t = true := by
  unfold vMatch at h
  split at h
  · next hc =>
    cases h
    exact ((Bool.and_eq_true _ _).mp hc).2
  · split at h
    · next hc => cases h; exact hc
    · cases h

theorem vMatch_some_self {s t : String} (h : vMatch s = some t) :
    vMatch t = some t :=
  vMatch_of_digitsDots (digitsDots_of_vMatch h)

theorem vStrip_idem (v : String) :
    (vMatch ((vMatch v).getD v)).getD ((vMatch v).getD v) = (vMatch v).getD v := by
  cases hv : vMatch v with
  | some t => simp [vMatch_some_self hv]
  | none => simp [hv]

/-! ### `splitDots` and `date_re` lemmas -/

theorem splitDots_no_dot {l : List Char} (h : ∀ c ∈ l, c ≠ '.') :
    splitDots l = [l] := by
  induction l with
  | nil => rfl
  | cons c t ih =>
    have hc : c ≠ '.' := h c (by simp)
    have ht : splitDots t = [t] := ih (fun x hx => h x (by simp [hx]))
    simp [splitDots, hc, ht]

theorem splitDots_append {a : List Char} (r : List Char) (h : ∀ c ∈ a, c ≠ '.') :
    splitDots (a ++ '.' :: r) = a :: splitDots r := by
  induction a with
  | nil => simp [splitDots]
  | cons c t ih =>
    have hc : c ≠ '.' := h c (by simp)
    have ht := ih (fun x hx => h x (by simp [hx]))
    simp only [List.cons_append, splitDots, hc, if_false]
    rw [show splitDots (t.append ('.' :: r)) = t :: splitDots r from ht]

theorem all_ne_dot_of_digits {l : List Char} (h : l.all Char.isDigit = true) :
    ∀ c ∈ l, c ≠ '.' := by
  intro c hc he
  subst he
  have := (List.all_eq_true.mp h) '.' hc
  exact absurd this (by decide)

theorem dateMatch_some {s : String} {y m d : List Char}
    (h : dateMatch s = some (y, m, d)) :
    y.length = 4 ∧ y.all Char.isDigit = true ∧
    1 ≤ m.length ∧ m.length ≤ 2 ∧ m.all Char.isDigit = true ∧
    1 ≤ d.length ∧ d.length ≤ 2 ∧ d.all Char.isDigit = true := by
  unfold dateMatch at h
  split at h
  · split at h
    · next hc =>
      simp only [Option.some.injEq, Prod.mk.injEq] at h
      obtain ⟨rfl, rfl, rfl⟩ := h
      exact hc
    · cases h
  · cases h

/-! ### Padding lemmas for the certifi date heuristic -/

theorem padL_length {w : Nat} {l : List Char} (h : l.length ≤ w) :
    (padL w l).length = w := by
  simp [padL]
  omega

theorem padL_of_length {w : Nat} {l : List Char} (h : w ≤ l.length) :
    padL w l = l := by
  simp [padL, Nat.sub_eq_zero_of_le h]

theorem padL_all_digits {w : Nat} {l : List Char} (h : l.all Char.isDigit = true) :
    (padL w l).all Char.isDigit = true := by
  simp only [padL, List.all_append, Bool.and_eq_true]
  refine ⟨?_, h⟩
  rw [List.all_eq_true]
  intro c hc
  rw [List.eq_of_mem_replicate hc]
  decide

theorem charOk_of_digit {c : Char} (h : c.isDigit = true) : charOk c = true := by
  simp [charOk, h]

theorem digitsDots_mkDateCanon {y m d : List Char}
    (hy : y.all Char.isDigit = true) (hm : m.all Char.isDigit = true)
    (hd : d.all Char.isDigit = true) (hyl : y.length = 4) :
    digitsDots (mkDateCanon y m d) = true := by
  unfold digitsDots mkDateCanon
  rw [Bool.and_eq_true]
  constructor
  · cases hc : padL 4 y with
    | nil =>
      have : (padL 4 y).length = 4 := padL_length (by omega)
      rw [hc] at this
      exact absurd this (by decide)
    | cons a t => simp [hc]
  · rw [List.all_eq_true]
    intro c hc
    rcases List.mem_append.mp hc with h1 | h2
    · exact charOk_of_digit ((List.all_eq_true.mp (padL_all_digits hy)) c h1)
    · rcases List.mem_cons.mp h2 with rfl | h3
      · decide
      · rcases List.mem_append.mp h3 with h4 | h5
        · exact charOk_of_digit ((List.all_eq_true.mp (padL_all_digits hm)) c h4)
        · rcases List.mem_cons.mp h5 with rfl | h6
          · decide
          · exact charOk_of_digit ((List.all_eq_true.mp (padL_all_digits hd)) c h6)

theorem dateMatch_mkDateCanon {y m d : List Char}
    (hy : y.all Char.isDigit = true) (hm : m.all Char.isDigit = true)
    (hd : d.all Char.isDigit = true)
    (hyl : y.length = 4) (hm1 : 1 ≤ m.length) (hm2 : m.length ≤ 2)
    (hd1 : 1 ≤ d.length) (hd2 : d.length ≤ 2) :
    dateMatch (mkDateCanon y m d) = some (padL 4 y, padL 2 m, padL 2 d) := by
  unfold dateMatch mkDateCanon
  have hsplit : splitDots (padL 4 y ++ '.' :: (padL 2 m ++ '.' :: padL 2 d))
      = [padL 4 y, padL 2 m, padL 2 d] := by
    rw [splitDots_append _ (all_ne_dot_of_digits (padL_all_digits hy))]
    rw [splitDots_append _ (all_ne_dot_of_digits (padL_all_digits hm))]
    rw [splitDots_no_dot (all_ne_dot_of_digits (padL_all_digits hd))]
  show (match splitDots (padL 4 y ++ '.' :: (padL 2 m ++ '.' :: padL 2 d)) with
    | [y, m, d] =>
      if y.length = 4 ∧ y.all Char.isDigit = true ∧
         1 ≤ m.length ∧ m.length ≤ 2 ∧ m.all Char.isDigit = true ∧
         1 ≤ d.length ∧ d.length ≤ 2 ∧ d.all Char.isDigit = true
      then some (y, m, d) else none
    | _ => none) = some (padL 4 y, padL 2 m, padL 2 d)
  rw [hsplit]
  have hys : (padL 4 y).length = 4 := padL_length (by omega)
  have hms : (padL 2 m).length = 2 := padL_length (by omega)
  have hds : (padL 2 d).length = 2 := padL_length (by omega)
  exact if_pos ⟨hys, padL_all_digits hy, by omega, by omega, padL_all_digits hm,
    by omega, by omega, padL_all_digits hd⟩

/-! ### Canonicalization idempotence machinery -/

theorem canonicalize_version_fst (alts : AltIdx) (n i v : String) (b : Bool) :
    (canonicalize_version alts n i v b).1 = (canon_pair n ((vMatch v).getD v)).1 := rfl

theorem canon_pair_of_no_strip {n : String} (x : String)
    (he : startsWithStr "erlang" n = false)
    (hg : startsWithStr "go programming language" n = false) :
    canon_pair n x =
      (if strContains n "certifi" then
        match dateMatch x with
        | some (y, m, d) => (mkDateCanon y m d, mkDateAlt y m d)
        | none => (x, x)
      else (x, x)) := by
  simp [canon_pair, he, hg]

theorem vMatch_mkDateCanon {y m d : List Char}
    (hy : y.all Char.isDigit = true) (hm : m.all Char.isDigit = true)
    (hd : d.all Char.isDigit = true) (hyl : y.length = 4) :
    vMatch (mkDateCanon y m d) = some (mkDateCanon y m d) :=
  vMatch_of_digitsDots (digitsDots_mkDateCanon hy hm hd hyl)

theorem mkDateCanon_pad_idem {y m d : List Char}
    (hyl : y.length ≤ 4) (hml : m.length ≤ 2) (hdl : d.length ≤ 2) :
    mkDateCanon (padL 4 y) (padL 2 m) (padL 2 d) = mkDateCanon y m d := by
  unfold mkDateCanon
  rw [padL_of_length (le_of_eq (padL_length hyl).symm),
      padL_of_length (le_of_eq (padL_length hml).symm),
      padL_of_length (le_of_eq (padL_length hdl).symm)]

theorem canon_pair_idem {comp_name : String} (w : String)
    (he : startsWithStr "erlang" comp_name = false)
    (hg : startsWithStr "go programming language" comp_name = false)
    (hvs : (vMatch w).getD w = w) :
    (canon_pair comp_name
        ((vMatch ((canon_pair comp_name w).1)).getD ((canon_pair comp_name w).1))).1
      = (canon_pair comp_name w).1 := by
  by_cases hcert : strContains comp_name "certifi" = true
  · simp only [canon_pair_of_no_strip _ he hg, hcert, if_true]
    cases hdm : dateMatch w with
    | none =>
      simp only [hdm, hvs]
    | some ymd =>
      obtain ⟨y, m, d⟩ := ymd
      obtain ⟨hyl, hy, hm1, hm2, hm, hd1, hd2, hd⟩ := dateMatch_some hdm
      simp only [hdm]
      rw [vMatch_mkDateCanon hy hm hd hyl]
      simp only [Option.getD_some]
      rw [dateMatch_mkDateCanon hy hm hd hyl hm1 hm2 hd1 hd2]
      exact mkDateCanon_pad_idem (by omega) hm2 hd2
  · simp only [canon_pair_of_no_strip _ he hg, hcert, if_false]
    exact hvs

/-! ### Diff-engine lemmas -/

theorem lookupStr_of_mem_nodup {α : Type} {l : List (String × α)}
    (hn : (l.map Prod.fst).Nodup) {p : String × α} (hp : p ∈ l) :
    lookupStr l p.1 = some p.2 := by
  induction l with
  | nil => cases hp
  | cons q t ih =>
    rw [List.map_cons] at hn
    obtain ⟨hq, ht⟩ := List.nodup_cons.mp hn
    rcases List.mem_cons.mp hp with h | h
    · subst h
      simp [lookupStr]
    · have hne : q.1 ≠ p.1 := by
        intro he
        exact hq (he ▸ List.mem_map_of_mem Prod.fst h)
      obtain ⟨k', v'⟩ := q
      simp only [lookupStr, hne, if_false]
      exact ih ht h

theorem filter_not_mem_self (l : List String) :
    l.filter (fun v => decide (v ∉ l)) = [] := by
  rw [List.filter_eq_nil_iff]
  intro a ha
  simp [ha]

theorem diffRec_self (comp_id : String) (r : CompRec) : diffRec comp_id r r = [] := by
  unfold diffRec
  rw [filter_not_mem_self]
  simp

theorem ddiff_self (I : List (String × CompRec)) (hn : (I.map Prod.fst).Nodup) :
    ddiff I I = [] := by
  have h1 : ∀ p ∈ I, lookupStr I p.1 = some p.2 :=
    fun p hp => lookupStr_of_mem_nodup hn hp
  unfold ddiff
  have hflat :
      (I.filterMap fun p => (lookupStr I p.1).map (fun rb => diffRec p.1 p.2 rb)).flatten
        = [] := by
    rw [List.flatten_eq_nil_iff]
    intro x hx
    rcases List.mem_filterMap.mp hx with ⟨p, hp, hf⟩
    rw [h1 p hp] at hf
    simp only [Option.map_some', Option.some.injEq] at hf
    rw [← hf]
    exact diffRec_self p.1 p.2
  have hrem : I.filter (fun p => (lookupStr I p.1).isNone) = [] := by
    rw [List.filter_eq_nil_iff]
    intro p hp
    simp [h1 p hp]
  rw [hflat, hrem]
  simp

/-! ### Fallback-resolution lemmas -/

theorem canon_pair_self (n v : String) (h1 : startsWithStr "OTP-" v = false)
    (h2 : startsWithStr "go" v = false) (h3 : dateMatch v = none) :
    canon_pair n v = (v, v) := by
  simp [canon_pair, h1, h2, h3]

theorem canonicalize_version_inert (alts : AltIdx) (n i v : String)
    (hvm : vMatch v = none) (h1 : startsWithStr "OTP-" v = false)
    (h2 : startsWithStr "go" v = false) (h3 : dateMatch v = none) :
    canonicalize_version alts n i v true = (v, alts) := by
  unfold canonicalize_version
  rw [hvm]
  simp only [Option.getD_none, Option.isSome_none, if_true]
  rw [canon_pair_self n v h1 h2 h3]
  simp [save_alt_block]

theorem find_canonical_none (find : String → String → Option String)
    (alts : AltIdx) (n cid v : String)
    (h : find cid v = none) (ha : ∀ a ∈ altsAt alts cid v, find cid a = none) :
    find_canonical_component_version find alts n cid v = none := by
  unfold find_canonical_component_version
  rw [h]
  cases hl : lookupStr alts (verKey cid v) with
  | none => rfl
  | some l =>
    rw [List.findSome?_eq_none_iff]
    intro a hax
    exact ha a (by simp [altsAt, hl, hax])

/-! ### Claim theorems -/

/-- C1, counterexample: the claim that an unspecified (`None`)
`licenseApproved` never overwrites a previously specified value is false
on the code.  Two `add_component` calls for component id `idA`, the
first with `license-approved: true`, the second without the key, leave
the desired manifest holding `none` — the `None` overwrote the earlier
`some true`. -/
theorem add_component_none_overwrites_license :
    (match add_component (fun _ _ => none) (UCState.mk [] [] [] [] []) "compA"
        (CompData.mk ["1.0"] (some true) none "idA") with
     | Except.ok st1 =>
       (match add_component (fun _ _ => none) st1 "compA"
           (CompData.mk ["1.0"] none none "idA") with
        | Except.ok st2 => (lookupStr st2.manifest "idA").map CompRec.license_approved
        | Except.error _ => none)
     | Except.error _ => none) = some none := by decide

/-- C1, amended: when multiple manifests mention the same component, the
`licenseApproved` value of the last `add_component` call wins
unconditionally — including an unspecified (`None`) value, which does
overwrite a previously specified `true`/`false`.  Formally: whenever
`add_component` succeeds, the stored `license-approved` for the
(alias-translated) component id equals exactly the value supplied by
that call. -/
theorem add_component_last_license_wins
    (find : String → String → Option String) (st : UCState)
    (comp_name0 : String) (cd : CompData) :
    (add_component find st comp_name0 cd).map
        (fun s => (lookupStr s.manifest
            ((lookupStr st.bd_comp_id_aliases cd.bd_id).getD cd.bd_id)).map
          CompRec.license_approved)
      = (add_component find st comp_name0 cd).map
          (fun _ => some cd.license_approved) := by
  unfold add_component
  cases h : canonicalized_versions find st (lowerStr (cd.bd_name.getD comp_name0))
      ((lookupStr st.bd_comp_id_aliases cd.bd_id).getD cd.bd_id) cd.versions with
  | error e => simp [h, Except.map]
  | ok p =>
    obtain ⟨alts', vers⟩ := p
    simp [h, Except.map, lookupStr_setStr_self]

/-- C2, counterexample: canonicalization is not idempotent for every
displayName and raw version.  For the erlang heuristic, one application
strips a single leading `OTP-`, so `OTP-OTP-25.0` canonicalizes to
`OTP-25.0`, which canonicalizes again to `25.0`. -/
theorem canonicalize_version_not_idempotent :
    (canonicalize_version [] "erlang/otp" "c1"
        ((canonicalize_version [] "erlang/otp" "c1" "OTP-OTP-25.0" false).1) false).1
      ≠ (canonicalize_version [] "erlang/otp" "c1" "OTP-OTP-25.0" false).1 := by decide

/-- C2, amended: canonicalization is idempotent for every component
whose displayName does not start with `erlang` or
`go programming language` (the two prefix-stripping heuristics); in
particular the default rule and the certifi date-padding rule are
idempotent for all raw versions. -/
theorem canonicalize_version_idempotent (alts : AltIdx) (comp_name comp_id v : String)
    (he : startsWithStr "erlang" comp_name = false)
    (hg : startsWithStr "go programming language" comp_name = false) :
    (canonicalize_version alts comp_name comp_id
        ((canonicalize_version alts comp_name comp_id v false).1) false).1
      = (canonicalize_version alts comp_name comp_id v false).1 := by
  rw [canonicalize_version_fst, canonicalize_version_fst]
  exact canon_pair_idem ((vMatch v).getD v) he hg (vStrip_idem v)

/-- C2, witness: the amended idempotence theorem applied at the certifi
date heuristic with a `v`-prefixed raw version. -/
theorem canonicalize_version_idempotent_witness :
    (canonicalize_version [] "python-certifi" "c1"
        ((canonicalize_version [] "python-certifi" "c1" "v2023.5.7" false).1) false).1
      = (canonicalize_version [] "python-certifi" "c1" "v2023.5.7" false).1 :=
  canonicalize_version_idempotent [] "python-certifi" "c1" "v2023.5.7"
    (by decide) (by decide)

/-- C3: diffing a canonical inventory against itself produces an empty
change sequence, and the apply loop of `perform` then executes zero
add/remove/license operations. -/
theorem ddiff_self_no_actions (I : List (String × CompRec))
    (hn : (I.map Prod.fst).Nodup) :
    ddiff I I = [] ∧ perform_count I I = 0 := by
  have h := ddiff_self I hn
  exact ⟨h, by simp [perform_count, h, perform_actions]⟩

/-- C3, witness: the self-diff theorem applied to a concrete one-entry
inventory. -/
theorem ddiff_self_no_actions_witness :
    ddiff [("c1", CompRec.mk ["1.0", "2.0"] "fmtlib/fmt" (some true))]
        [("c1", CompRec.mk ["1.0", "2.0"] "fmtlib/fmt" (some true))] = []
  ∧ perform_count [("c1", CompRec.mk ["1.0", "2.0"] "fmtlib/fmt" (some true))]
        [("c1", CompRec.mk ["1.0", "2.0"] "fmtlib/fmt" (some true))] = 0 :=
  ddiff_self_no_actions _ (by decide)

/-- C4: with a fallback configured for `(cid, "3.0") ↦ "3.0-rc1"`, the
remote BOM listing neither version for `cid`, and the catalog probe
failing for `"3.0"` and every registered alternate: if the probe finds
`"3.0-rc1"`, `fallback_version_if_necessary` returns `"3.0-rc1"` (with
the alternate index unchanged — `"3.0-rc1"` yields no new alternates);
if the probe also fails for `"3.0-rc1"` and its alternates, the call is
fatal (`sys.exit(2)`). -/
theorem fallback_resolution
    (find1 find2 : String → String → Option String)
    (st : UCState) (comp_name cid u : String)
    (hfb : lookupStr st.bd_comp_version_fallbacks (verKey cid "3.0") = some "3.0-rc1")
    (hbom : ∀ r, lookupStr st.bom_comp_map cid = some r →
        "3.0" ∉ r.versions ∧ "3.0-rc1" ∉ r.versions)
    (h30a : find1 cid "3.0" = none)
    (halta : ∀ a ∈ altsAt st.bd_alt_canonical_versions cid "3.0", find1 cid a = none)
    (hrc : find1 cid "3.0-rc1" = some u)
    (h30b : find2 cid "3.0" = none)
    (haltb : ∀ a ∈ altsAt st.bd_alt_canonical_versions cid "3.0", find2 cid a = none)
    (hrcb : find2 cid "3.0-rc1" = none)
    (haltc : ∀ a ∈ altsAt st.bd_alt_canonical_versions cid "3.0-rc1", find2 cid a = none) :
    fallback_version_if_necessary find1 st comp_name cid "3.0"
        = Except.ok ("3.0-rc1", st.bd_alt_canonical_versions)
  ∧ fallback_version_if_necessary find2 st comp_name cid "3.0" = Except.error 2 := by
  have hbomfalse : (match lookupStr st.bom_comp_map cid with
      | some comp_data => decide ("3.0" ∈ comp_data.versions)
      | none => false) = false := by
    cases hb : lookupStr st.bom_comp_map cid with
    | none => rfl
    | some r => simp [(hbom r hb).1]
  have hcanon : canonicalize_version st.bd_alt_canonical_versions comp_name cid
      "3.0-rc1" true = ("3.0-rc1", st.bd_alt_canonical_versions) :=
    canonicalize_version_inert _ _ _ _ (by decide) (by decide) (by decide) (by decide)
  constructor
  · unfold fallback_version_if_necessary
    rw [hfb]
    simp only [hbomfalse, Bool.false_eq_true, if_false,
      find_canonical_none find1 st.bd_alt_canonical_versions comp_name cid "3.0"
        h30a halta,
      hcanon]
    unfold find_canonical_component_version
    rw [hrc]
  · unfold fallback_version_if_necessary
    rw [hfb]
    simp only [hbomfalse, Bool.false_eq_true, if_false,
      find_canonical_none find2 st.bd_alt_canonical_versions comp_name cid "3.0"
        h30b haltb,
      hcanon,
      find_canonical_none find2 st.bd_alt_canonical_versions comp_name cid "3.0-rc1"
        hrcb haltc]

/-- C4, witness: the fallback-resolution theorem applied to a concrete
state whose only fallback is `(c1, 3.0) ↦ 3.0-rc1`, a catalog that knows
only `3.0-rc1` of `c1`, and a catalog that knows nothing. -/
theorem fallback_resolution_witness :
    fallback_version_if_necessary
        (fun i v => if i = "c1" ∧ v = "3.0-rc1" then some "url1" else none)
        (UCState.mk [] [("c1::3.0", "3.0-rc1")] [] [] []) "mylib" "c1" "3.0"
      = Except.ok ("3.0-rc1", [])
  ∧ fallback_version_if_necessary (fun _ _ => none)
        (UCState.mk [] [("c1::3.0", "3.0-rc1")] [] [] []) "mylib" "c1" "3.0"
      = Except.error 2 :=
  fallback_resolution
    (fun i v => if i = "c1" ∧ v = "3.0-rc1" then some "url1" else none)
    (fun _ _ => none)
    (UCState.mk [] [("c1::3.0", "3.0-rc1")] [] [] []) "mylib" "c1" "url1"
    (by decide)
    (by intro r hr; simp [lookupStr] at hr)
    (by decide)
    (by intro a ha; simp [altsAt, lookupStr] at ha)
    (by decide)
    rfl
    (by intro a ha; simp [altsAt, lookupStr] at ha)
    rfl
    (by intro a ha; simp [altsAt, lookupStr] at ha)

/-- C5, counterexample: the component-specific heuristics are keyed
case-sensitively, not case-insensitively: `Erlang/OTP` does not trigger
the `OTP-` stripping rule that `erlang/otp` triggers, so the two
displayNames (differing only in letter case) canonicalize
`OTP-25.0` differently. -/
theorem canonicalize_heuristics_not_case_insensitive :
    ¬ ((canonicalize_version [] "Erlang/OTP" "c1" "OTP-25.0" false).1
        = (canonicalize_version [] "erlang/otp" "c1" "OTP-25.0" false).1) := by decide

/-- C5, amended: the heuristics match case-sensitively against lowercase
literals, so they fire exactly on already-lowercased displayNames (the
manifest and BOM loaders lowercase the name before calling
`canonicalize_version`; the alias loader does not): `erlang/otp` strips
the `OTP-` prefix while `Erlang/OTP` leaves the version unchanged, for
every alternate index and component id. -/
theorem canonicalize_heuristics_case_sensitive (alts : AltIdx) (comp_id : String) :
    (canonicalize_version alts "erlang/otp" comp_id "OTP-25.0" false).1 = "25.0"
  ∧ (canonicalize_version alts "Erlang/OTP" comp_id "OTP-25.0" false).1 = "OTP-25.0" :=
  ⟨rfl, rfl⟩

/-- C6: canonicalizing raw version `2023.5.7` of a certifi component
with `save_alts=True` returns the zero-padded `2023.05.07`, and the
alternate index entry for `(c1, 2023.05.07)` afterwards contains the
non-padded spelling `2023.5.7`. -/
theorem certifi_date_padding :
    (canonicalize_version [] "certifi" "c1" "2023.5.7" true).1 = "2023.05.07"
  ∧ "2023.5.7" ∈ altsAt (canonicalize_version [] "certifi" "c1" "2023.5.7" true).2
      "c1" "2023.05.07" := by decide

/-- C7: `_find_component_version` returns a URL only when some entry of
the catalog search response has a `versionName` exactly equal to the
requested version (and then returns that entry's href); when no entry
matches exactly — e.g. only wildcard false positives from the `+`→`_`
substitution come back — it returns `none`. -/
theorem find_component_version_exact (search : String → String → List KBVersionEntry)
    (comp_name comp_id version : String) :
    (∀ url, find_component_version search comp_name comp_id version = some url →
        ∃ e ∈ search comp_id (safe_version version),
          e.versionName = version ∧ e.href = url)
  ∧ ((∀ e ∈ search comp_id (safe_version version), e.versionName ≠ version) →
      find_component_version search comp_name comp_id version = none) := by
  constructor
  · intro url h
    unfold find_component_version at h
    cases hf : List.find? (fun e => e.versionName == version)
        (search comp_id (safe_version version)) with
    | none =>
      rw [hf] at h
      cases h
    | some e =>
      rw [hf] at h
      simp only [Option.some.injEq] at h
      refine ⟨e, List.mem_of_find?_eq_some hf, ?_, h⟩
      have hp := List.find?_some hf
      simpa using hp
  · intro hne
    unfold find_component_version
    have hf : List.find? (fun e => e.versionName == version)
        (search comp_id (safe_version version)) = none := by
      rw [List.find?_eq_none]
      intro e he
      simp [hne e he]
    rw [hf]

/-- C7, witness: the exact-match theorem applied to a search oracle
returning only the wildcard false positive `1.2_3` for the request
`1.2+3`; the lookup is rejected and returns `none`. -/
theorem find_component_version_exact_witness :
    find_component_version (fun _ _ => [KBVersionEntry.mk "1.2_3" "u1"])
        "n" "cid" "1.2+3" = none :=
  (find_component_version_exact (fun _ _ => [KBVersionEntry.mk "1.2_3" "u1"])
      "n" "cid" "1.2+3").2 (by decide)

/-- C8: when the Knowledgebase resolves the requested version to a URL
that does not contain the expected component id, `add_component_version`
logs the mismatch prominently but does not abort: it still proceeds to
the add mutation (or the dry-run skip). -/
theorem add_component_version_mismatch_nonfatal
    (find : String → String → Option String) (alts : AltIdx) (dryrun : Bool)
    (comp_name comp_id version url : String)
    (hfind : find comp_id version = some url)
    (hmm : strContains url comp_id = false) :
    add_component_version find alts dryrun comp_name comp_id version
      = Except.ok [ApplyEvent.idMismatch comp_id url,
          if dryrun then ApplyEvent.dryrunSkip else ApplyEvent.addMutation url] := by
  unfold add_component_version find_canonical_component_version
  rw [hfind]
  simp [hmm]

/-- C8, witness: the mismatch theorem applied to a catalog resolving to
a URL of a different component id, in dry-run mode. -/
theorem add_component_version_mismatch_nonfatal_witness :
    add_component_version (fun _ _ => some "https://h/api/components/zzz/versions/x")
        [] true "fmtlib/fmt" "abc" "1.0"
      = Except.ok [ApplyEvent.idMismatch "abc" "https://h/api/components/zzz/versions/x",
          ApplyEvent.dryrunSkip] :=
  add_component_version_mismatch_nonfatal
    (fun _ _ => some "https://h/api/components/zzz/versions/x") [] true
    "fmtlib/fmt" "abc" "1.0" "https://h/api/components/zzz/versions/x"
    rfl (by decide)

/-- C9: loading the remote BOM inventory never touches the
alternate-version index: for every starting state and every list of
remote records, `_load_manual_bom_components` leaves
`bd_alt_canonical_versions` exactly unchanged (remote-state versions are
canonicalized with `save_alts=False`). -/
theorem load_bom_preserves_alt_index (st : UCState) (items : List BomItem) :
    (load_manual_bom_components st items).bd_alt_canonical_versions
      = st.bd_alt_canonical_versions := by
  induction items generalizing st with
  | nil => rfl
  | cons comp rest ih =>
    calc (load_manual_bom_components st (comp :: rest)).bd_alt_canonical_versions
        = (load_manual_bom_components (load_manual_bom_components st [comp])
            rest).bd_alt_canonical_versions := rfl
      _ = (load_manual_bom_components st [comp]).bd_alt_canonical_versions := ih _
      _ = st.bd_alt_canonical_versions := rfl

/-- C10, counterexample: for the certifi date heuristic the registered
`v`-prefixed alternate is `v` + the raw version, not `v` + the canonical
version: canonicalizing `2023.5.7` yields canonical `2023.05.07`, and
`v2023.05.07` is not registered as an alternate for it
(only `2023.5.7` and `v2023.5.7` are). -/
theorem v_alt_not_v_canonical :
    ¬ ("v" ++ (canonicalize_version [] "certifi" "c1" "2023.5.7" true).1)
        ∈ altsAt (canonicalize_version [] "certifi" "c1" "2023.5.7" true).2 "c1"
          (canonicalize_version [] "certifi" "c1" "2023.5.7" true).1 := by decide

/-- C10, amended: for every raw version consisting only of digits and
dots (which cannot start with `v`, so no `v` prefix is stripped),
canonicalizing with `save_alts=True` registers the `v`-prefixed spelling
of the *raw* version (`"v" ++ raw`) as an alternate for
`(id, canonical version)` — this coincides with `v` + canonical except
when a heuristic (certifi date padding) changed the spelling. -/
theorem v_alt_registered (alts : AltIdx) (comp_name comp_id s : String)
    (h : digitsDots s = true) :
    ("v" ++ s) ∈ altsAt (canonicalize_version alts comp_name comp_id s true).2
        comp_id (canonicalize_version alts comp_name comp_id s true).1 := by
  have hv : vMatch s = some s := vMatch_of_digitsDots h
  simp only [canonicalize_version, hv, Option.getD_some, Option.isSome_some, if_true]
  exact mem_save_alt_block alts comp_id _ _ s

/-- C10, witness: the amended registration theorem applied to a plain
digits-and-dots version of a component with no heuristics. -/
theorem v_alt_registered_witness :
    ("v" ++ "1.2.3") ∈ altsAt (canonicalize_version [] "mylib" "c1" "1.2.3" true).2
        "c1" (canonicalize_version [] "mylib" "c1" "1.2.3" true).1 :=
  v_alt_registered [] "mylib" "c1" "1.2.3" (by decide)

/-- C1, witness: the last-write-wins theorem applied at a concrete
state and component entry. -/
theorem add_component_last_license_wins_witness :
    (add_component (fun _ _ => none) (UCState.mk [] [] [] [] []) "compA"
        (CompData.mk ["1.0"] (some false) none "idA")).map
        (fun s => (lookupStr s.manifest
            ((lookupStr (UCState.mk [] [] [] [] [] : UCState).bd_comp_id_aliases
              "idA").getD "idA")).map CompRec.license_approved)
      = (add_component (fun _ _ => none) (UCState.mk [] [] [] [] []) "compA"
          (CompData.mk ["1.0"] (some false) none "idA")).map
          (fun _ => some (some false)) :=
  add_component_last_license_wins (fun _ _ => none) (UCState.mk [] [] [] [] [])
    "compA" (CompData.mk ["1.0"] (some false) none "idA")

/-- C5, witness: the case-sensitivity theorem applied at a concrete
alternate index and component id. -/
theorem canonicalize_heuristics_case_sensitive_witness :
    (canonicalize_version [] "erlang/otp" "c9" "OTP-25.0" false).1 = "25.0"
  ∧ (canonicalize_version [] "Erlang/OTP" "c9" "OTP-25.0" false).1 = "OTP-25.0" :=
  canonicalize_heuristics_case_sensitive [] "c9"

/-- C9, witness: the frame theorem applied to a concrete pre-populated
alternate index and one remote record. -/
theorem load_bom_preserves_alt_index_witness :
    (load_manual_bom_components (UCState.mk [] [] [("k", ["a"])] [] [])
        [BomItem.mk "https://h/api/components/c1" "Fmtlib/Fmt" (some "v7.1.3")
          "REVIEWED"]).bd_alt_canonical_versions
      = [("k", ["a"])] :=
  load_bom_preserves_alt_index (UCState.mk [] [] [("k", ["a"])] [] [])
    [BomItem.mk "https://h/api/components/c1" "Fmtlib/Fmt" (some "v7.1.3") "REVIEWED"]
